import Mathlib

/-!
Verification of the chunking / retrieval core of the LLM-Twin-Modern
repository, shallowly embedded in Lean 4.

Strings are modelled as `List Char` (Python `str`); the services of
`llm_engineering/application/services` are translated definition by
definition.  External collaborators (the embedding model, the LLM port,
the web loader) are passed as parameters, matching the spec's port view.
Python code paths that raise are modelled with `Except`.
-/

set_option maxRecDepth 20000

namespace LLMTwin

/-- Python `str` is modelled as a list of characters. -/
abbrev Str := List Char

/-- Coerce a Lean string literal into the model's string type. -/
def s2l (s : String) : Str := s.data

/-- The characters Python's `str.isspace` / default `str.strip` treat as
whitespace (ASCII part plus the C1/Unicode members that matter here). -/
def pyIsSpace (c : Char) : Bool :=
  c == ' ' || c == '\t' || c == '\n' || c == '\r' || c == '\x0b' || c == '\x0c' ||
  c == '\x1c' || c == '\x1d' || c == '\x1e' || c == '\x1f' || c == '\x85' ||
  c == Char.ofNat 0xa0 || c == Char.ofNat 0x2028 || c == Char.ofNat 0x2029 ||
  c == Char.ofNat 0x3000

/-- Line boundaries recognised by Python `str.splitlines`. -/
def isLineBoundary (c : Char) : Bool :=
  c == '\n' || c == '\r' || c == '\x0b' || c == '\x0c' ||
  c == '\x1c' || c == '\x1d' || c == '\x1e' || c == '\x85' ||
  c == Char.ofNat 0x2028 || c == Char.ofNat 0x2029

/-- Python `str.lstrip()` (default whitespace). -/
def pyLstrip (l : Str) : Str := l.dropWhile pyIsSpace

/-- Python `str.rstrip()` (default whitespace). -/
def pyRstrip (l : Str) : Str := (l.reverse.dropWhile pyIsSpace).reverse

/-- Python `str.strip()` (default whitespace). -/
def pyStrip (l : Str) : Str := pyRstrip (pyLstrip l)

/-- ASCII lower-casing, modelling Python `str.lower` on the inputs that
matter for the chunker's heuristics. -/
def asciiLower (c : Char) : Char :=
  if 'A' ≤ c ∧ c ≤ 'Z' then Char.ofNat (c.toNat + 32) else c

/-- Python `str.lower()`. -/
def pyLower (l : Str) : Str := l.map asciiLower

/-- Python `str.isupper` for a single character (ASCII model). -/
def pyIsUpper (c : Char) : Bool := 'A' ≤ c ∧ c ≤ 'Z'

/-- Prepend a character to the first piece of a split result. -/
def consHead (c : Char) : List Str → List Str
  | [] => [[c]]
  | p :: ps => (c :: p) :: ps

/-- Python `text.replace("\r\n", "\n")`: leftmost, non-overlapping. -/
def replaceCRLF : Str → Str
  | [] => []
  | [c] => [c]
  | c1 :: c2 :: rest =>
    if c1 = '\r' ∧ c2 = '\n' then '\n' :: replaceCRLF rest
    else c1 :: replaceCRLF (c2 :: rest)

/-- Python `text.replace(old, new)` for a single-character pattern. -/
def replaceChar (old new : Char) (l : Str) : Str :=
  l.map fun c => if c = old then new else c

/-- Python `str.splitlines` (on a non-empty string); `\r\n` is one
boundary, and there is no trailing empty line after a final boundary. -/
def splitlinesGo : Str → List Str
  | [] => [[]]
  | [c] => if isLineBoundary c then [[]] else [[c]]
  | c1 :: c2 :: rest =>
    if c1 = '\r' ∧ c2 = '\n' then
      [] :: (match rest with | [] => [] | _ :: _ => splitlinesGo rest)
    else if isLineBoundary c1 then [] :: splitlinesGo (c2 :: rest)
    else consHead c1 (splitlinesGo (c2 :: rest))

/-- Python `str.splitlines`. -/
def pySplitlines : Str → List Str
  | [] => []
  | l => splitlinesGo l

/-- Python `"\n".join(pieces)` and friends: join with a separator. -/
def joinSep (sep : Str) : List Str → Str
  | [] => []
  | x :: xs =>
    match xs with
    | [] => x
    | _ :: _ => x ++ sep ++ joinSep sep xs

/-- The two-character paragraph separator `"\n\n"`. -/
def nn : Str := ['\n', '\n']

/-- Python `re.sub(r"\n{3,}", "\n\n", text)`: a run of three or more
newlines collapses to exactly two.  The `Bool` is true while skipping the
remainder of a collapsed run. -/
def collapseNlGo : Bool → Str → Str
  | _, [] => []
  | true, c :: rest =>
    if c = '\n' then collapseNlGo true rest else c :: collapseNlGo false rest
  | false, [c] => [c]
  | false, [c1, c2] => [c1, c2]
  | false, c1 :: c2 :: c3 :: rest =>
    if c1 = '\n' ∧ c2 = '\n' ∧ c3 = '\n' then '\n' :: '\n' :: collapseNlGo true rest
    else c1 :: collapseNlGo false (c2 :: c3 :: rest)

def collapseBlankRuns (l : Str) : Str := collapseNlGo false l

/-- Python `text.split("\n")`. -/
def splitNl : Str → List Str
  | [] => [[]]
  | '\n' :: rest => [] :: splitNl rest
  | c :: rest => consHead c (splitNl rest)

/-- Python `text.split("\n\n")`: leftmost, non-overlapping. -/
def splitNN : Str → List Str
  | [] => [[]]
  | '\n' :: '\n' :: rest => [] :: splitNN rest
  | c :: rest => consHead c (splitNN rest)

/-- Whether `"\n\n"` occurs in the text (Python `"\n\n" in text`). -/
def hasNN : Str → Bool
  | '\n' :: '\n' :: _ => true
  | _ :: rest => hasNN rest
  | [] => false

/-- Python `line.count(" / ")`: non-overlapping occurrences. -/
def countSlashSep : Str → Nat
  | ' ' :: '/' :: ' ' :: rest => 1 + countSlashSep rest
  | _ :: rest => countSlashSep rest
  | [] => 0

namespace ChunkerService

/-- `ChunkerService.target_chars`. -/
def targetChars : Nat := 350
/-- `ChunkerService.min_chars`. -/
def minChars : Nat := 120
/-- `ChunkerService.max_chars`. -/
def maxChars : Nat := 700
/-- `ChunkerService.overlap_blocks`. -/
def overlapBlocks : Nat := 1

/-- `ChunkerService._normalize`. -/
def normalize (text : Str) : Str :=
  let text := replaceChar '\r' '\n' (replaceCRLF text)
  let text := replaceChar (Char.ofNat 0x200b) ' ' text
  let text := replaceChar (Char.ofNat 0xfeff) ' ' text
  let text := joinSep (s2l "\n") ((pySplitlines text).map pyRstrip)
  let text := collapseBlankRuns text
  pyStrip text

/-- The lowercase phrases of `ChunkerService._is_boilerplate_line`. -/
def badPhrases : List Str :=
  [s2l "cookie", s2l "privacy policy", s2l "terms of service", s2l "accept all",
   s2l "manage cookies", s2l "subscribe", s2l "sign in", s2l "log in",
   s2l "newsletter", s2l "all rights reserved"]

/-- The character class of `re.fullmatch` in `_is_boilerplate_line`
(dash, en dash, em dash, underscore, equals, bullet, whitespace). -/
def isSepChar (c : Char) : Bool :=
  c == '-' || c == Char.ofNat 0x2013 || c == Char.ofNat 0x2014 ||
  c == '_' || c == '=' || c == Char.ofNat 0x2022 || pyIsSpace c

/-- Python `needle in haystack` (substring test). -/
def containsSub (needle : Str) : Str → Bool
  | [] => needle.isPrefixOf []
  | c :: rest => needle.isPrefixOf (c :: rest) || containsSub needle rest

/-- `ChunkerService._is_boilerplate_line`. -/
def isBoilerplateLine (line : Str) : Bool :=
  let lo := pyLower line
  if line.length ≤ 2 then true
  else if (badPhrases.any fun p => containsSub p lo) ∧ line.length < 120 then true
  else if 5 ≤ line.length ∧ line.all isSepChar then true
  else if 3 ≤ countSlashSep line ∧ line.length < 120 then true
  else false

/-- ASCII word characters, the `\b` boundary class of the heading regex. -/
def isWordChar (c : Char) : Bool :=
  ('a' ≤ c ∧ c ≤ 'z') ∨ ('A' ≤ c ∧ c ≤ 'Z') ∨ ('0' ≤ c ∧ c ≤ '9') ∨ c = '_'

/-- The keyword alternatives of the heading regex. -/
def headingKeywords : List Str :=
  [s2l "step", s2l "chapter", s2l "overview", s2l "introduction", s2l "installation"]

/-- `re.match` of `^(step|chapter|overview|introduction|installation)\b`
against a (lowercased) line. -/
def headingKeywordMatch (lo : Str) : Bool :=
  headingKeywords.any fun kw =>
    kw.isPrefixOf lo &&
      (match lo.drop kw.length with
       | [] => true
       | c :: _ => !isWordChar c)

/-- `ChunkerService._looks_like_heading`. -/
def looksLikeHeading (line : Str) : Bool :=
  if (s2l "#").isPrefixOf line then true
  else if line.length ≤ 80 ∧ headingKeywordMatch (pyLower line) then true
  else if line.length ≤ 60 ∧ 2 ≤ line.countP pyIsUpper then true
  else false

/-- The stripped, non-empty, non-boilerplate lines of a raw case-A block. -/
def caseALines (b : Str) : List Str :=
  (((splitNl b).map pyStrip).filter (fun ln => ln ≠ [])).filter
    (fun ln => !isBoilerplateLine ln)

/-- The per-paragraph body of `_to_blocks` case A: strip and filter the
lines of a raw block, keep a lone heading standalone, otherwise join the
lines with single spaces; `none` when nothing survives. -/
def processCaseABlock (b : Str) : Option Str :=
  let lines := caseALines b
  if lines = [] then none
  else if lines.length = 1 ∧ looksLikeHeading (lines.headD []) then some (lines.headD [])
  else some (joinSep (s2l " ") lines)

/-- The accumulation loop of `_to_blocks` case B (no blank lines in the
text): headings become their own blocks, other lines accumulate until the
running length reaches 300. -/
def caseBGo : List Str → List Str → List Str
  | [], current =>
    if current = [] then [] else [pyStrip (joinSep (s2l " ") current)]
  | ln :: rest, current =>
    if looksLikeHeading ln ∧ ln.length ≤ 120 then
      (if current = [] then [] else [pyStrip (joinSep (s2l " ") current)]) ++
        ln :: caseBGo rest []
    else
      let current := current ++ [ln]
      if 300 ≤ (current.map List.length).sum then
        pyStrip (joinSep (s2l " ") current) :: caseBGo rest []
      else caseBGo rest current

/-- `ChunkerService._to_blocks`. -/
def toBlocks (text : Str) : List Str :=
  let text := pyStrip text
  if text = [] then []
  else if hasNN text then
    (((splitNN text).map pyStrip).filter (fun b => b ≠ [])).filterMap processCaseABlock
  else
    let lines := ((splitNl text).map pyStrip).filter (fun ln => ln ≠ [])
    let lines := lines.filter (fun ln => !isBoilerplateLine ln)
    if lines = [] then [] else caseBGo lines []

/-- The buffer loop of `ChunkerService._merge_tiny_blocks`. -/
def mergeTinyGo : Str → List Str → List Str
  | buf, [] => if buf = [] then [] else [buf]
  | buf, b :: rest =>
    if buf = [] then mergeTinyGo b rest
    else if buf.length < minChars then mergeTinyGo (buf ++ nn ++ b) rest
    else buf :: mergeTinyGo b rest

/-- `ChunkerService._merge_tiny_blocks`. -/
def mergeTinyBlocks (blocks : List Str) : List Str := mergeTinyGo [] blocks

/-- The sentence punctuation of `_split_large_block`. -/
def isSentPunct (c : Char) : Bool := c == '.' || c == '!' || c == '?'

def prevIsPunct : Option Char → Bool
  | some p => isSentPunct p
  | none => false

/-- `re.split` of `\s+` preceded by sentence punctuation: the split of
`_split_large_block`.  Mode `true` is consuming a whitespace run just
after a split point. -/
def sentSplitGo : Bool → Option Char → Str → List Str
  | _, _, [] => [[]]
  | true, _, c :: rest =>
    if pyIsSpace c then sentSplitGo true none rest
    else consHead c (sentSplitGo false (some c) rest)
  | false, prev, c :: rest =>
    if prevIsPunct prev ∧ pyIsSpace c then [] :: sentSplitGo true none rest
    else consHead c (sentSplitGo false (some c) rest)

def reSentencePieces (block : Str) : List Str := sentSplitGo false none block

/-- The re-packing loop of `_split_large_block`: greedily pack sentence
pieces up to `maxChars`. -/
def packPiecesGo : Str → List Str → List Str
  | cur, [] => if cur = [] then [] else [pyStrip cur]
  | cur, p :: rest =>
    if p = [] then packPiecesGo cur rest
    else if cur.length + p.length + 1 ≤ maxChars then
      packPiecesGo (pyStrip (cur ++ [' '] ++ p)) rest
    else if cur = [] then packPiecesGo (pyStrip p) rest
    else pyStrip cur :: packPiecesGo (pyStrip p) rest

/-- `ChunkerService._split_large_block`. -/
def splitLargeBlock (block : Str) : List Str :=
  packPiecesGo [] (reSentencePieces block)

/-- The accumulation state of `ChunkerService.chunk`. -/
structure ChunkSt where
  chunks : List (Str × Str)
  cur : List Str
  curLen : Nat
  idx : Nat

/-- The chunk identifier `doc_id + "#chunk" + ordinal` emitted by `flush`. -/
def chunkId (docId : Str) (idx : Nat) : Str :=
  docId ++ s2l "#chunk" ++ Nat.toDigits 10 idx

/-- The inner `flush()` of `ChunkerService.chunk`: emit the current blocks
as one chunk when their joined, stripped text is non-empty. -/
def flushSt (docId : Str) (st : ChunkSt) : ChunkSt :=
  if st.cur = [] then st
  else
    let ct := pyStrip (joinSep nn st.cur)
    if ct = [] then st
    else { st with chunks := st.chunks ++ [(chunkId docId st.idx, ct)], idx := st.idx + 1 }

/-- The overlap carry of `ChunkerService.chunk`: seed the next chunk with
the last `overlapBlocks` paragraph pieces of the chunk just emitted. -/
def carrySt (st : ChunkSt) : ChunkSt :=
  if 0 < overlapBlocks ∧ st.chunks ≠ [] then
    let prevText := (st.chunks.getLastD ([], [])).2
    let prevBlocks := splitNN prevText
    let carry := prevBlocks.drop (prevBlocks.length - overlapBlocks)
    { st with cur := carry, curLen := (carry.map List.length).sum + 2 * (carry.length - 1) }
  else { st with cur := [], curLen := 0 }

/-- The exception raised by `chunk` on an oversized block: the source
calls `self._append_block`, a method the class does not define. -/
def attrErrorMsg : Str :=
  s2l "AttributeError: ChunkerService object has no attribute _append_block"

/-- One iteration of the block loop in `ChunkerService.chunk`. -/
def stepBlock (docId : Str) (st : ChunkSt) (b : Str) : Except Str ChunkSt :=
  if maxChars < b.length then
    if splitLargeBlock b = [] then .ok st else .error attrErrorMsg
  else
    let st := if 0 < st.curLen ∧ maxChars < st.curLen + b.length + 2 then
        carrySt (flushSt docId st)
      else st
    let st := { st with cur := st.cur ++ [b],
                        curLen := st.curLen + b.length + (if 0 < st.curLen then 2 else 0) }
    if targetChars ≤ st.curLen ∧ minChars ≤ st.curLen then .ok (carrySt (flushSt docId st))
    else .ok st

def chunkLoop (docId : Str) : List Str → ChunkSt → Except Str ChunkSt
  | [], st => .ok st
  | b :: rest, st =>
    match stepBlock docId st b with
    | .error e => .error e
    | .ok st2 => chunkLoop docId rest st2

/-- The pronoun/connective starts of `_fix_pronoun_starts`. -/
def pronouns : List Str :=
  [s2l "it ", s2l "this ", s2l "they ", s2l "these ", s2l "also ",
   s2l "therefore ", s2l "however "]

/-- The loop of `ChunkerService._fix_pronoun_starts`; the first argument
is `prev_text`, the (already fixed) text of the previous chunk. -/
def fixGo : Str → List (Str × Str) → List (Str × Str)
  | _, [] => []
  | prevText, (cid, ctext) :: rest =>
    let start := pyLower (pyStrip ctext)
    let ctext2 :=
      if prevText ≠ [] ∧ pronouns.any (fun p => p.isPrefixOf start) then
        pyStrip (pyStrip ((splitNN prevText).getLastD []) ++ nn ++ ctext)
      else ctext
    (cid, ctext2) :: fixGo ctext2 rest

/-- `ChunkerService._fix_pronoun_starts`. -/
def fixPronounStarts (chunks : List (Str × Str)) : List (Str × Str) := fixGo [] chunks

/-- `ChunkerService.chunk`.  The branch for a block longer than
`maxChars` calls the undefined method `_append_block` in the source, so
it is modelled as raising `AttributeError` (unless the piece list is
empty, in which case the Python loop body never runs). -/
def chunk (docId text : Str) : Except Str (List (Str × Str)) :=
  let text := normalize text
  if text = [] then .ok []
  else
    let blocks := toBlocks text
    if blocks = [] then .ok []
    else
      let blocks := mergeTinyBlocks blocks
      match chunkLoop docId blocks ⟨[], [], 0, 0⟩ with
      | .error e => .error e
      | .ok st => .ok (fixPronounStarts (flushSt docId st).chunks)

end ChunkerService

namespace DenseVectorStore

/-- One stored entry of `DenseVectorStore._docs`: the key and its
`(raw_text, vector)` value.  The Python dict is modelled as an
insertion-ordered association list; vector components are exact numbers
(every Python float is a rational). -/
abbrev Entry := Str × Str × List ℚ

/-- `DenseVectorStore.add`: dict upsert — an existing key keeps its
position and gets the new value, a new key is appended. -/
def add (docs : List Entry) (docId : Str) (text : Str) (vec : List ℚ) : List Entry :=
  if docs.any (fun e => decide (e.1 = docId)) then
    docs.map (fun e => if e.1 = docId then (docId, text, vec) else e)
  else docs ++ [(docId, text, vec)]

/-- `np.dot` for two 1-d arrays of equal length. -/
def dotQ (a b : List ℚ) : ℚ := (List.zipWith (· * ·) a b).sum

/-- The squared Euclidean norm; `np.linalg.norm a = Real.sqrt (normSq a)`. -/
def normSq (a : List ℚ) : ℚ := (a.map fun x => x * x).sum

noncomputable def normR (a : List ℚ) : ℝ := Real.sqrt ((normSq a : ℚ) : ℝ)

def valueErrorMsg : Str := s2l "ValueError: shapes not aligned"

/-- `_cosine` from `vector_store_dense.py`.  The `denom == 0.0` test is
expressed as `normSq a * normSq b = 0`, which is equivalent over the
reals; `np.dot` raises `ValueError` on mismatched non-trivial shapes,
which the source reaches only after the empty and zero-denominator
checks. -/
noncomputable def cosineE (a b : List ℚ) : Except Str ℝ :=
  if a = [] ∨ b = [] then .ok 0
  else if normSq a * normSq b = 0 then .ok 0
  else if a.length = b.length then .ok (((dotQ a b : ℚ) : ℝ) / (normR a * normR b))
  else .error valueErrorMsg

/-- `DenseVectorStore.search`: score every stored entry against the
query, sort descending by score (Python `list.sort` is stable;
`insertionSort` with the reflexive descending relation has the same
stable-descending semantics), truncate to `k`. -/
noncomputable def search (docs : List Entry) (q : List ℚ) (k : ℕ) :
    Except Str (List (Str × ℝ × Str)) := do
  let results ← docs.mapM (fun e => do
    let s ← cosineE q e.2.2
    pure (e.1, s, e.2.1))
  pure ((results.insertionSort (fun x y => y.2.1 ≤ x.2.1)).take k)

end DenseVectorStore

namespace LLMClient

/-- A dynamic Python value, as far as `LLMClient._to_dict` and
`LLMClient._extract_text` can observe one: `None`, a string, a mapping,
or an attribute-bearing object whose optional second component is the
result of `model_dump()` / `dict()` when the object offers one (absent:
`_to_dict` falls back to `__dict__`, i.e. the attribute list).  The
`str()` rendering of non-string payloads is abstracted to a fixed tag;
only its strip-emptiness is ever relevant to the claims. -/
inductive PyVal : Type
  | pyNone : PyVal
  | pyStr : Str → PyVal
  | pyDict : List (Str × PyVal) → PyVal
  | pyObj : List (Str × PyVal) → Option (List (Str × PyVal)) → PyVal

/-- Python `v is None`. -/
def PyVal.isNone : PyVal → Bool
  | .pyNone => true
  | _ => false

/-- Python `getattr(v, name, None)` (returning `none` for "no attribute"). -/
def pyGetattr : PyVal → Str → Option PyVal
  | .pyObj attrs _, name => (attrs.find? fun p => decide (p.1 = name)).map (·.2)
  | _, _ => none

/-- Python `str(v)`. -/
def pyStrOf : PyVal → Str
  | .pyNone => s2l "None"
  | .pyStr s => s
  | .pyDict _ => s2l "<dict>"
  | .pyObj _ _ => s2l "<object>"

/-- Python truthiness test (`or` fallback). -/
def pyFalsy : PyVal → Bool
  | .pyNone => true
  | .pyStr s => decide (s = [])
  | .pyDict d => d.isEmpty
  | .pyObj _ _ => false

/-- `d.get(key)` on a mapping. -/
def dget (d : List (Str × PyVal)) (key : Str) : Option PyVal :=
  (d.find? fun p => decide (p.1 = key)).map (·.2)

/-- `LLMClient._to_dict`. -/
def toDict : PyVal → List (Str × PyVal)
  | .pyNone => []
  | .pyDict d => d
  | .pyObj attrs dump => dump.getD attrs
  | .pyStr _ => []

/-- `x or ""` applied to an optional lookup result. -/
def orEmptyStr : Option PyVal → PyVal
  | some v => if pyFalsy v then .pyStr [] else v
  | none => .pyStr []

/-- Strategy 1 of `_extract_text`: typed attribute access
`resp.message.content`. -/
def tryAttrMessage (resp : PyVal) : Option Str :=
  match pyGetattr resp (s2l "message") with
  | some msg =>
    if msg.isNone then none
    else
      match pyGetattr msg (s2l "content") with
      | some content =>
        if content.isNone then none else some (pyStrip (pyStrOf content))
      | none => none
  | none => none

/-- Strategy 2 of `_extract_text`: typed attribute access `resp.response`. -/
def tryAttrResponse (resp : PyVal) : Option Str :=
  match pyGetattr resp (s2l "response") with
  | some v => if v.isNone then none else some (pyStrip (pyStrOf v))
  | none => none

/-- The trailing `if "response" in d` part of `_extract_text`. -/
def dictResponsePart (d : List (Str × PyVal)) : Str :=
  match dget d (s2l "response") with
  | some rv => pyStrip (pyStrOf (orEmptyStr (some rv)))
  | none => []

/-- The dict-parsing part of `_extract_text` (strategy 3). -/
def extractFromDict (d : List (Str × PyVal)) : Str :=
  if d.isEmpty then []
  else
    match dget d (s2l "message") with
    | some msgv =>
      let msg := if pyFalsy msgv then PyVal.pyDict [] else msgv
      match msg with
      | .pyDict md => pyStrip (pyStrOf (orEmptyStr (dget md (s2l "content"))))
      | _ =>
        match pyGetattr msg (s2l "content") with
        | some content =>
          if content.isNone then dictResponsePart d
          else pyStrip (pyStrOf content)
        | none => dictResponsePart d
    | none => dictResponsePart d

/-- `LLMClient._extract_text`. -/
def extractText (resp : PyVal) : Str :=
  match tryAttrMessage resp with
  | some s => s
  | none =>
    match tryAttrResponse resp with
    | some s => s
    | none => extractFromDict (toDict resp)

/-- The `except` branch of `LLMClient.generate` renders the exception. -/
def llmErrorAnswer (e : Str) : Str := s2l "[LLM error: " ++ e ++ s2l "]"

/-- `LLMClient.generate`.  The two provider calls (`chat`, then
`generate`) are external; each is passed in as its outcome — a response
value, or the exception it raised.  An exception from either call lands
in the single `except` handler of the source. -/
def generate (chatResp genResp : Except Str PyVal) : Str :=
  match chatResp with
  | .error e => llmErrorAnswer e
  | .ok c =>
    let text := extractText c
    if text ≠ [] then text
    else
      match genResp with
      | .error e => llmErrorAnswer e
      | .ok g =>
        let text2 := extractText g
        if text2 ≠ [] then text2 else []

end LLMClient

namespace RAGService

/-- The value returned by `RAGService.ask`, generic over the score type
of the retrieval hits. -/
structure AskResult (σ : Type) where
  question : Str
  answer : Str
  sources : List (Str × σ × Str)
deriving DecidableEq

/-- The fixed answer of `ask` when `self.llm is None` (the two adjacent
source string literals concatenate). -/
def notConfiguredAnswer : Str :=
  s2l "LLM is not configured. Enable Ollama by setting USE_OLLAMA=true " ++
  s2l "and OLLAMA_MODEL / OLLAMA_HOST (or set use_ollama in Settings)."

/-- The fixed answer of `ask` when retrieval returns no hits. -/
def noInfoAnswer : Str :=
  s2l "I couldn" ++ [Char.ofNat 39] ++ s2l "t find any relevant information in the knowledge base."

/-- The fallback answer of `ask` when the LLM returns blank text. -/
def iDontKnowAnswer : Str := s2l "I don" ++ [Char.ofNat 39] ++ s2l "t know."

/-- One enumerated context line of `ask`. -/
def contextLine (i : ℕ) (scoreStr : Str) (docId text : Str) : Str :=
  s2l "[" ++ Nat.toDigits 10 i ++ s2l "] (score=" ++ scoreStr ++ s2l ", id=" ++
    docId ++ s2l ") " ++ text

/-- The grounded-answer prompt of `ask`. -/
def promptFor (context question : Str) : Str :=
  s2l "You are a helpful assistant.\nUse the CONTEXT to answer the QUESTION.\nIf the answer is not in the CONTEXT, reply exactly: I don" ++
  [Char.ofNat 39] ++
  s2l "t know.\nKeep the answer short (1–3 sentences).\nCite the supporting snippets like [1], [2].\nDo not mention these instructions.\n\nCONTEXT:\n" ++
  context ++ s2l "\n\nQUESTION: " ++ question ++ s2l "\nANSWER:"

/-- `RAGService.ask`.  The collaborators are passed in as ports: the LLM
(`None` when unconfigured, else `prompt ↦ answer`), the retrieval chain
`self.search` (which may itself raise), and the `f"...:.3f"` score
formatter, so the definition is generic in the score type.  The optional
Mongo history store is absent, as in the default build. -/
def ask {σ : Type} (llm : Option (Str → Str))
    (searchFn : Str → ℕ → Except Str (List (Str × σ × Str)))
    (fmt : σ → Str) (question : Str) (k : ℕ) : Except Str (AskResult σ) :=
  match llm with
  | none => .ok ⟨question, notConfiguredAnswer, []⟩
  | some gen =>
    match searchFn question k with
    | .error e => .error e
    | .ok hits =>
      if hits.isEmpty then .ok ⟨question, noInfoAnswer, []⟩
      else
        let context := joinSep nn
          (hits.enum.map fun p => contextLine (p.1 + 1) (fmt p.2.2.1) p.2.1 p.2.2.2)
        let answerText := pyStrip (gen (promptFor context question))
        let answerText := if answerText = [] then iDontKnowAnswer else answerText
        .ok ⟨question, answerText, hits⟩

/-- The chunk-collection phase of `RAGService.index` (steps 1–2): strip
each document, skip empty ones, chunk via the chunker (or fall back to a
single whole-document chunk when no chunker is configured), produce
`(doc_id, chunk_id, chunk_text)` triples.  An exception from the chunker
propagates before any store write happens. -/
def collectChunkItems (chunkerPresent : Bool) :
    List (Str × Str) → Except Str (List (Str × Str × Str))
  | [] => .ok []
  | (docId, fullText) :: rest =>
    let ft := pyStrip fullText
    if ft = [] then collectChunkItems chunkerPresent rest
    else if chunkerPresent then
      match ChunkerService.chunk docId ft with
      | .error e => .error e
      | .ok pairs =>
        match collectChunkItems chunkerPresent rest with
        | .error e => .error e
        | .ok tl => .ok ((pairs.map fun p => (docId, p.1, p.2)) ++ tl)
    else
      match collectChunkItems chunkerPresent rest with
      | .error e => .error e
      | .ok tl => .ok ((docId, docId ++ s2l "#chunk0", ft) :: tl)

/-- `RAGService.index` on the in-process dense backend: chunk all
documents, then `add` each chunk's text and embedding under its chunk id.
Returns the store after the call paired with the outcome (the chunk
count, or the exception raised); on an exception no write has happened
yet, so the store is unchanged. -/
def indexDense (embed : Str → List ℚ) (chunkerPresent : Bool)
    (store : List DenseVectorStore.Entry) (items : List (Str × Str)) :
    List DenseVectorStore.Entry × Except Str ℕ :=
  match collectChunkItems chunkerPresent items with
  | .error e => (store, .error e)
  | .ok cis =>
    if cis = [] then (store, .ok 0)
    else (cis.foldl (fun s ci => DenseVectorStore.add s ci.2.1 ci.2.2 (embed ci.2.2)) store,
          .ok cis.length)

/-- The number of entries the store holds for a given document: those
whose key carries the document's chunk-id tag. -/
def countFor (docId : Str) (store : List DenseVectorStore.Entry) : ℕ :=
  ((store.map (·.1)).filter fun key => (docId ++ s2l "#chunk").isPrefixOf key).length

end RAGService

/-! ## String lemmas -/

lemma dropWhile_idem (p : Char → Bool) (l : Str) :
    (l.dropWhile p).dropWhile p = l.dropWhile p := by
  induction l with
  | nil => rfl
  | cons c rest ih =>
    by_cases h : p c
    · simp [List.dropWhile_cons, h, ih]
    · simp [List.dropWhile_cons, h]

lemma dropWhile_cons_self (p : Char → Bool) (a : Char) (l : Str)
    (h : (a :: l).dropWhile p = a :: l) : p a = false := by
  by_cases ha : p a
  · exfalso
    rw [List.dropWhile_cons_of_pos ha] at h
    have := congrArg List.length h
    have hle := (l.dropWhile_sublist p).length_le
    simp at this
    omega
  · simpa using ha

lemma pyLstrip_idem (l : Str) : pyLstrip (pyLstrip l) = pyLstrip l :=
  dropWhile_idem pyIsSpace l

lemma pyRstrip_idem (l : Str) : pyRstrip (pyRstrip l) = pyRstrip l := by
  unfold pyRstrip
  rw [List.reverse_reverse, dropWhile_idem]

lemma pyRstrip_isPre (l : Str) : pyRstrip l <+: l := by
  unfold pyRstrip
  have h : l.reverse.dropWhile pyIsSpace <:+ l.reverse := List.dropWhile_suffix _
  have := List.reverse_prefix.mpr h
  simpa using this

lemma pyLstrip_pyRstrip (l : Str) (h : pyLstrip l = l) :
    pyLstrip (pyRstrip l) = pyRstrip l := by
  rcases hr : pyRstrip l with _ | ⟨c, t⟩
  · rfl
  · have hpre : pyRstrip l <+: l := pyRstrip_isPre l
    rw [hr] at hpre
    obtain ⟨u, hu⟩ := hpre
    have hc : pyIsSpace c = false := by
      apply dropWhile_cons_self pyIsSpace c (t ++ u)
      rw [← List.cons_append, hu]
      exact h
    unfold pyLstrip
    rw [List.dropWhile_cons_of_neg (by simp [hc])]

lemma pyStrip_idem (l : Str) : pyStrip (pyStrip l) = pyStrip l := by
  unfold pyStrip
  rw [pyLstrip_pyRstrip (pyLstrip l) (pyLstrip_idem l), pyRstrip_idem]

lemma pyStrip_eq_nil_iff (l : Str) :
    pyStrip l = [] ↔ ∀ c ∈ l, pyIsSpace c = true := by
  unfold pyStrip pyRstrip pyLstrip
  constructor
  · intro h c hc
    have hrev : (l.dropWhile pyIsSpace).reverse.dropWhile pyIsSpace = [] := by
      have := congrArg List.reverse h
      simpa using this
    have hall := List.dropWhile_eq_nil_iff.mp hrev
    rcases List.mem_append.mp ((List.takeWhile_append_dropWhile pyIsSpace l) ▸ hc) with h1 | h2
    · exact List.mem_takeWhile_imp h1
    · exact hall c (List.mem_reverse.mpr h2)
  · intro h
    have : l.dropWhile pyIsSpace = [] :=
      List.dropWhile_eq_nil_iff.mpr fun x hx => h x hx
    simp [this]

lemma pyStrip_ne_nil (l : Str) (c : Char) (hc : c ∈ l) (h : pyIsSpace c = false) :
    pyStrip l ≠ [] := by
  intro hnil
  have := (pyStrip_eq_nil_iff l).mp hnil c hc
  rw [h] at this
  exact Bool.false_ne_true this

/-- All characters of a string satisfy `P`. -/
def allP (P : Char → Prop) (l : Str) : Prop := ∀ c ∈ l, P c

lemma allP_replaceCRLF (P : Char → Prop) (hnl : P '\n') :
    ∀ l : Str, allP P l → allP P (replaceCRLF l) := by
  intro l
  induction l using replaceCRLF.induct with
  | case1 => exact fun h => h
  | case2 c => exact fun h => h
  | case3 c1 c2 rest hcr ih =>
    intro h c hc
    rw [show replaceCRLF (c1 :: c2 :: rest) = '\n' :: replaceCRLF rest by
      simp only [replaceCRLF, if_pos hcr]] at hc
    rcases List.mem_cons.mp hc with h1 | h2
    · exact h1 ▸ hnl
    · exact ih (fun x hx => h x (by simp [hx])) c h2
  | case4 c1 c2 rest hcr ih =>
    intro h c hc
    rw [show replaceCRLF (c1 :: c2 :: rest) = c1 :: replaceCRLF (c2 :: rest) by
      simp only [replaceCRLF, if_neg hcr]] at hc
    rcases List.mem_cons.mp hc with h1 | h2
    · exact h1 ▸ h c1 (by simp)
    · exact ih (fun x hx => h x (by simp [hx])) c h2

lemma allP_replaceChar (P : Char → Prop) (old new : Char) (hnew : P new)
    (l : Str) (h : allP P l) : allP P (replaceChar old new l) := by
  intro c hc
  rw [replaceChar] at hc
  obtain ⟨a, ha, hac⟩ := List.mem_map.mp hc
  by_cases hao : a = old
  · simp [hao] at hac; exact hac ▸ hnew
  · simp [hao] at hac; exact hac ▸ h a ha

lemma allP_consHead (P : Char → Prop) (c : Char) (ps : List Str)
    (hc : P c) (h : ∀ p ∈ ps, allP P p) : ∀ p ∈ consHead c ps, allP P p := by
  cases ps with
  | nil =>
    intro p hp
    rw [consHead] at hp
    rcases List.mem_singleton.mp hp with rfl
    intro x hx
    rcases List.mem_singleton.mp hx with rfl
    exact hc
  | cons q qs =>
    intro p hp
    rw [consHead] at hp
    rcases List.mem_cons.mp hp with h1 | h2
    · subst h1; intro x hx
      rcases List.mem_cons.mp hx with h3 | h4
      · exact h3 ▸ hc
      · exact h q (by simp) x h4
    · exact h p (by simp [h2])

lemma allP_splitlinesGo (P : Char → Prop) :
    ∀ l : Str, allP P l → ∀ p ∈ splitlinesGo l, allP P p := by
  intro l
  induction l using splitlinesGo.induct with
  | case1 =>
    intro _ p hp
    rw [splitlinesGo] at hp
    rcases List.mem_singleton.mp hp with rfl
    intro c hc; cases hc
  | case2 c hb =>
    intro h p hp
    rw [show splitlinesGo [c] = [[]] by simp only [splitlinesGo, if_pos hb]] at hp
    rcases List.mem_singleton.mp hp with rfl
    intro x hx; cases hx
  | case3 c hb =>
    intro h p hp
    rw [show splitlinesGo [c] = [[c]] by simp only [splitlinesGo, if_neg hb]] at hp
    rcases List.mem_singleton.mp hp with rfl
    intro x hx
    rcases List.mem_singleton.mp hx with rfl
    exact h x (by simp)
  | case4 c1 c2 rest hcr ih =>
    intro h p hp
    simp only [splitlinesGo, if_pos hcr] at hp
    rcases List.mem_cons.mp hp with h1 | h2
    · subst h1; intro x hx; cases hx
    · cases rest with
      | nil => simp at h2
      | cons a as =>
        exact ih (fun x hx => h x (by simp [hx])) p h2
  | case5 c1 c2 rest hcr hb ih =>
    intro h p hp
    rw [show splitlinesGo (c1 :: c2 :: rest) = [] :: splitlinesGo (c2 :: rest) by
      simp only [splitlinesGo, if_neg hcr, if_pos hb]] at hp
    rcases List.mem_cons.mp hp with h1 | h2
    · subst h1; intro x hx; cases hx
    · exact ih (fun x hx => h x (by simp [hx])) p h2
  | case6 c1 c2 rest hcr hb ih =>
    intro h p hp
    rw [show splitlinesGo (c1 :: c2 :: rest) = consHead c1 (splitlinesGo (c2 :: rest)) by
      simp only [splitlinesGo, if_neg hcr, if_neg hb]] at hp
    exact allP_consHead P c1 _ (h c1 (by simp))
      (ih (fun x hx => h x (by simp [hx]))) p hp

lemma allP_pySplitlines (P : Char → Prop) (l : Str) (h : allP P l) :
    ∀ p ∈ pySplitlines l, allP P p := by
  cases l with
  | nil => intro p hp; simp [pySplitlines] at hp
  | cons c rest => exact allP_splitlinesGo P _ h

lemma allP_pyRstrip (P : Char → Prop) (l : Str) (h : allP P l) :
    allP P (pyRstrip l) := by
  intro c hc
  exact h c ((pyRstrip_isPre l).subset hc)

lemma allP_pyLstrip (P : Char → Prop) (l : Str) (h : allP P l) :
    allP P (pyLstrip l) := by
  intro c hc
  exact h c ((List.dropWhile_sublist _).subset hc)

lemma allP_joinSep (P : Char → Prop) (sep : Str) (hsep : allP P sep) :
    ∀ ps : List Str, (∀ p ∈ ps, allP P p) → allP P (joinSep sep ps) := by
  intro ps
  induction ps with
  | nil => intro _ c hc; cases hc
  | cons x xs ih =>
    intro h c hc
    cases xs with
    | nil =>
      rw [joinSep] at hc
      exact h x (by simp) c hc
    | cons y ys =>
      rw [joinSep] at hc
      rcases List.mem_append.mp hc with h1 | h2
      · rcases List.mem_append.mp h1 with ha | hb
        · exact h x (by simp) c ha
        · exact hsep c hb
      · exact ih (fun p hp => h p (by simp [hp])) c h2

lemma allP_collapseNlGo (P : Char → Prop) (hnl : P '\n') :
    ∀ (b : Bool) (l : Str), allP P l → allP P (collapseNlGo b l) := by
  intro b l
  induction b, l using collapseNlGo.induct with
  | case1 b => intro _ c hc; rw [collapseNlGo] at hc; cases hc
  | case2 rest ih =>
    intro h
    rw [show collapseNlGo true ('\n' :: rest) = collapseNlGo true rest by
      simp [collapseNlGo]]
    exact ih (fun x hx => h x (by simp [hx]))
  | case3 c rest hc ih =>
    intro h x hx
    rw [show collapseNlGo true (c :: rest) = c :: collapseNlGo false rest by
      simp only [collapseNlGo, if_neg hc]] at hx
    rcases List.mem_cons.mp hx with h1 | h2
    · exact h1 ▸ h c (by simp)
    · exact ih (fun y hy => h y (by simp [hy])) x h2
  | case4 c =>
    intro h x hx
    rw [collapseNlGo] at hx
    rcases List.mem_singleton.mp hx with rfl
    exact h x (by simp)
  | case5 c1 c2 =>
    intro h x hx
    rw [collapseNlGo] at hx
    rcases List.mem_cons.mp hx with h1 | h2
    · exact h1 ▸ h c1 (by simp)
    · rcases List.mem_singleton.mp h2 with rfl
      exact h x (by simp)
  | case6 c1 c2 c3 rest hnnn ih =>
    intro h x hx
    rw [show collapseNlGo false (c1 :: c2 :: c3 :: rest) =
        '\n' :: '\n' :: collapseNlGo true rest by
      simp only [collapseNlGo, if_pos hnnn]] at hx
    rcases List.mem_cons.mp hx with h1 | h2
    · exact h1 ▸ hnl
    · rcases List.mem_cons.mp h2 with h3 | h4
      · exact h3 ▸ hnl
      · exact ih (fun y hy => h y (by simp [hy])) x h4
  | case7 c1 c2 c3 rest hnnn ih =>
    intro h x hx
    rw [show collapseNlGo false (c1 :: c2 :: c3 :: rest) =
        c1 :: collapseNlGo false (c2 :: c3 :: rest) by
      simp only [collapseNlGo, if_neg hnnn]] at hx
    rcases List.mem_cons.mp hx with h1 | h2
    · exact h1 ▸ h c1 (by simp)
    · exact ih (fun y hy => h y (by simp [hy])) x h2

lemma normalize_of_allSpace (t : Str) (h : ∀ c ∈ t, pyIsSpace c = true) :
    ChunkerService.normalize t = [] := by
  unfold ChunkerService.normalize
  apply (pyStrip_eq_nil_iff _).mpr
  have h1 : allP (fun c => pyIsSpace c = true) (replaceCRLF t) :=
    allP_replaceCRLF _ (by decide) t h
  have h2 := allP_replaceChar (fun c => pyIsSpace c = true) '\r' '\n' (by decide) _ h1
  have h3 := allP_replaceChar (fun c => pyIsSpace c = true)
    (Char.ofNat 0x200b) ' ' (by decide) _ h2
  have h4 := allP_replaceChar (fun c => pyIsSpace c = true)
    (Char.ofNat 0xfeff) ' ' (by decide) _ h3
  have h5 : ∀ p ∈ (pySplitlines (replaceChar (Char.ofNat 0xfeff) ' '
      (replaceChar (Char.ofNat 0x200b) ' '
        (replaceChar '\r' '\n' (replaceCRLF t))))).map pyRstrip,
      allP (fun c => pyIsSpace c = true) p := by
    intro p hp
    obtain ⟨q, hq, hqp⟩ := List.mem_map.mp hp
    exact hqp ▸ allP_pyRstrip _ q (allP_pySplitlines _ _ h4 q hq)
  have hsep : allP (fun c => pyIsSpace c = true) (s2l "\n") := by
    intro c hc
    rcases List.mem_singleton.mp hc with rfl
    rfl
  have h6 := allP_joinSep (fun c => pyIsSpace c = true) (s2l "\n") hsep _ h5
  exact allP_collapseNlGo (fun c => pyIsSpace c = true) (by decide) false _ h6

/-! ## Chunk-loop invariants -/

namespace ChunkerService

lemma carrySt_chunks (st : ChunkSt) : (carrySt st).chunks = st.chunks := by
  unfold carrySt
  split_ifs <;> rfl

lemma carrySt_idx (st : ChunkSt) : (carrySt st).idx = st.idx := by
  unfold carrySt
  split_ifs <;> rfl

/-- Any property of the accumulation state that survives `flushSt`,
`carrySt` and rewriting of the current-buffer fields survives one
iteration of the block loop. -/
lemma stepBlock_preserves (Q : ChunkSt → Prop) (d : Str)
    (hflush : ∀ st, Q st → Q (flushSt d st))
    (hcarry : ∀ st, Q st → Q (carrySt st))
    (hupd : ∀ (st : ChunkSt) (cur : List Str) (len : Nat),
      Q st → Q { st with cur := cur, curLen := len })
    (st : ChunkSt) (b : Str) (st' : ChunkSt)
    (h : stepBlock d st b = .ok st') (hq : Q st) : Q st' := by
  unfold stepBlock at h
  by_cases hbig : maxChars < b.length
  · rw [if_pos hbig] at h
    by_cases hp : splitLargeBlock b = []
    · rw [if_pos hp] at h; cases h; exact hq
    · rw [if_neg hp] at h; cases h
  · rw [if_neg hbig] at h
    dsimp only at h
    set st1 := if 0 < st.curLen ∧ maxChars < st.curLen + b.length + 2 then
        carrySt (flushSt d st) else st with hst1
    have hq1 : Q st1 := by
      rw [hst1]
      split_ifs
      · exact hcarry _ (hflush _ hq)
      · exact hq
    by_cases hc2 : (targetChars ≤ st1.curLen + List.length b + if 0 < st1.curLen then 2 else 0) ∧
        minChars ≤ st1.curLen + List.length b + if 0 < st1.curLen then 2 else 0
    · rw [if_pos hc2] at h
      cases h
      exact hcarry _ (hflush _ (hupd st1 _ _ hq1))
    · rw [if_neg hc2] at h
      cases h
      exact hupd st1 _ _ hq1

lemma chunkLoop_preserves (Q : ChunkSt → Prop) (d : Str)
    (hflush : ∀ st, Q st → Q (flushSt d st))
    (hcarry : ∀ st, Q st → Q (carrySt st))
    (hupd : ∀ (st : ChunkSt) (cur : List Str) (len : Nat),
      Q st → Q { st with cur := cur, curLen := len }) :
    ∀ (bs : List Str) (st st' : ChunkSt),
      chunkLoop d bs st = .ok st' → Q st → Q st' := by
  intro bs
  induction bs with
  | nil =>
    intro st st' h hq
    rw [chunkLoop] at h
    cases h
    exact hq
  | cons b rest ih =>
    intro st st' h hq
    rw [chunkLoop] at h
    cases hsb : stepBlock d st b with
    | error e => rw [hsb] at h; cases h
    | ok st2 =>
      rw [hsb] at h
      exact ih st2 st' h
        (stepBlock_preserves Q d hflush hcarry hupd st b st2 hsb hq)

/-- Every chunk collected so far has text that is strip-fixed and
non-empty. -/
def goodChunks (cs : List (Str × Str)) : Prop :=
  ∀ p ∈ cs, pyStrip p.2 = p.2 ∧ p.2 ≠ []

lemma goodChunks_flushSt (d : Str) (st : ChunkSt) (h : goodChunks st.chunks) :
    goodChunks (flushSt d st).chunks := by
  unfold flushSt
  dsimp only
  split_ifs with h1 h2
  · exact h
  · exact h
  · intro p hp
    simp only at hp
    rcases List.mem_append.mp hp with hp | hp
    · exact h p hp
    · rcases List.mem_singleton.mp hp with rfl
      exact ⟨pyStrip_idem _, h2⟩

lemma exists_nonspace_of_good (t : Str) (hfix : pyStrip t = t) (hne : t ≠ []) :
    ∃ c ∈ t, pyIsSpace c = false := by
  by_contra hall
  push_neg at hall
  have : ∀ c ∈ t, pyIsSpace c = true := by
    intro c hc
    have := hall c hc
    revert this
    cases pyIsSpace c <;> simp
  exact hne (hfix ▸ (pyStrip_eq_nil_iff t).mpr this)

lemma goodChunks_fixGo : ∀ (cs : List (Str × Str)) (prev : Str),
    goodChunks cs → goodChunks (fixGo prev cs) := by
  intro cs
  induction cs with
  | nil => intro prev _ p hp; cases hp
  | cons c rest ih =>
    intro prev hg
    obtain ⟨cid, ctext⟩ := c
    have hc : pyStrip ctext = ctext ∧ ctext ≠ [] := hg (cid, ctext) (by simp)
    rw [fixGo]
    intro p hp
    rcases List.mem_cons.mp hp with h1 | h2
    · subst h1
      split_ifs with hcond
      · refine ⟨pyStrip_idem _, ?_⟩
        obtain ⟨c0, hc0, hc0s⟩ := exists_nonspace_of_good ctext hc.1 hc.2
        exact pyStrip_ne_nil _ c0 (by simp [hc0]) hc0s
      · exact hc
    · exact ih _ (fun q hq => hg q (by simp [hq])) p h2

end ChunkerService

namespace ChunkerService

/-- The chunk-id invariant: the ids collected so far are exactly
`chunkId d 0 .. chunkId d (idx-1)` in order. -/
def idsSpec (d : Str) (st : ChunkSt) : Prop :=
  st.chunks.map Prod.fst = (List.range st.idx).map (chunkId d)

lemma idsSpec_flushSt (d : Str) (st : ChunkSt) (h : idsSpec d st) :
    idsSpec d (flushSt d st) := by
  unfold flushSt
  dsimp only
  split_ifs with h1 h2
  · exact h
  · exact h
  · unfold idsSpec at h ⊢
    simp only [List.map_append, List.range_succ, h, List.map_cons, List.map_nil]

lemma idsSpec_carrySt (d : Str) (st : ChunkSt) (h : idsSpec d st) :
    idsSpec d (carrySt st) := by
  unfold idsSpec at h ⊢
  rw [carrySt_chunks, carrySt_idx]
  exact h

lemma fixGo_map_fst : ∀ (cs : List (Str × Str)) (prev : Str),
    (fixGo prev cs).map Prod.fst = cs.map Prod.fst := by
  intro cs
  induction cs with
  | nil => intro prev; rfl
  | cons c rest ih =>
    intro prev
    obtain ⟨cid, ctext⟩ := c
    rw [fixGo]
    simp only [List.map_cons]
    rw [ih]

end ChunkerService

namespace ChunkerService

/-- The frame behaviour of the `_fix_pronoun_starts` loop, for an
arbitrary seed `prev`: ids are unchanged, and each output text is either
the input text or the strip of (stripped last paragraph-piece of the
previous output text, a blank line, the input text); at index 0 the
"previous output" is the seed. -/
lemma fixGo_spec : ∀ (cs : List (Str × Str)) (prev : Str),
    (fixGo prev cs).map Prod.fst = cs.map Prod.fst ∧
    (∀ i : ℕ, i < cs.length →
      ((fixGo prev cs).getD i ([], [])).2 = (cs.getD i ([], [])).2 ∨
      ((fixGo prev cs).getD i ([], [])).2 =
        pyStrip (pyStrip ((splitNN (if i = 0 then prev
            else ((fixGo prev cs).getD (i - 1) ([], [])).2)).getLastD []) ++
          nn ++ (cs.getD i ([], [])).2)) := by
  intro cs
  induction cs with
  | nil =>
    intro prev
    exact ⟨rfl, fun i hi => absurd hi (by simp)⟩
  | cons c rest ih =>
    intro prev
    obtain ⟨cid, ctext⟩ := c
    rw [fixGo]
    constructor
    · simp only [List.map_cons]
      rw [(ih _).1]
    · intro i hi
      cases i with
      | zero =>
        simp only [List.getD_cons_zero]
        split_ifs with hcond
        · right; rfl
        · left; rfl
      | succ j =>
        simp only [List.getD_cons_succ]
        have hj : j < rest.length := by
          simpa using Nat.lt_of_succ_lt_succ hi
        rcases (ih _).2 j hj with hl | hr
        · left; exact hl
        · right
          cases j with
          | zero =>
            simpa using hr
          | succ j2 =>
            simpa using hr

end ChunkerService

namespace ChunkerService

/-- Python `str.split()` with no argument: the whitespace-separated
words of a line (used only to state the spec reading of the heading
heuristic). -/
def pyWordsGo : Str → Str → List Str
  | acc, [] => if acc = [] then [] else [acc.reverse]
  | acc, c :: rest =>
    if pyIsSpace c then
      if acc = [] then pyWordsGo [] rest else acc.reverse :: pyWordsGo [] rest
    else pyWordsGo (c :: acc) rest

def pyWords (l : Str) : List Str := pyWordsGo [] l

/-- The heading heuristic as the claim words it: heading marker, known
heading-word prefix, or short with at least two uppercase-initial
*words*. -/
def claimLooksLikeHeading (line : Str) : Bool :=
  (s2l "#").isPrefixOf line ||
  headingKeywordMatch (pyLower line) ||
  (decide (line.length ≤ 60) &&
    decide (2 ≤ ((pyWords line).filter fun w =>
      match w with | c :: _ => pyIsUpper c | [] => false).length))

/-- The heading heuristic as the source computes it, written as the
amended claim words it: heading marker, a known heading-word prefix on a
line of at most 80 characters, or at most 60 characters containing at
least two uppercase *characters*. -/
def amendedLooksLikeHeading (line : Str) : Bool :=
  (s2l "#").isPrefixOf line ||
  (decide (line.length ≤ 80) && headingKeywordMatch (pyLower line)) ||
  (decide (line.length ≤ 60) && decide (2 ≤ (line.filter pyIsUpper).length))

end ChunkerService

/-! ## Store-key lemmas -/

namespace DenseVectorStore

/-- The effect of a dict upsert on the ordered key list. -/
def insertKey (ks : List Str) (k : Str) : List Str :=
  if k ∈ ks then ks else ks ++ [k]

lemma add_map_fst (docs : List Entry) (k t : Str) (v : List ℚ) :
    (add docs k t v).map (·.1) = insertKey (docs.map (·.1)) k := by
  unfold add insertKey
  by_cases hmem : k ∈ docs.map (·.1)
  · have hany : docs.any (fun e => decide (e.1 = k)) = true := by
      rw [List.any_eq_true]
      obtain ⟨e, he, hek⟩ := List.mem_map.mp hmem
      exact ⟨e, he, by simp [hek]⟩
    rw [if_pos hany, if_pos hmem, List.map_map]
    apply List.map_congr_left
    intro e he
    by_cases hek : e.1 = k
    · simp [hek]
    · simp [hek]
  · have hany : docs.any (fun e => decide (e.1 = k)) = false := by
      rw [List.any_eq_false]
      intro e he
      simp only [decide_eq_true_eq]
      intro hek
      exact hmem (List.mem_map.mpr ⟨e, he, hek⟩)
    rw [if_neg (by simp [hany]), if_neg hmem]
    simp

lemma addAll_map_fst (embed : Str → List ℚ) :
    ∀ (cis : List (Str × Str × Str)) (store : List Entry),
    ((cis.foldl (fun s ci => add s ci.2.1 ci.2.2 (embed ci.2.2)) store).map (·.1)) =
      cis.foldl (fun ks ci => insertKey ks ci.2.1) (store.map (·.1)) := by
  intro cis
  induction cis with
  | nil => intro store; rfl
  | cons c rest ih =>
    intro store
    rw [List.foldl_cons, List.foldl_cons, ih, add_map_fst]

lemma mem_insertKey_self (ks : List Str) (k : Str) : k ∈ insertKey ks k := by
  unfold insertKey
  split_ifs with h
  · exact h
  · simp

lemma mem_insertKey_mono (ks : List Str) (k a : Str) (h : a ∈ ks) :
    a ∈ insertKey ks k := by
  unfold insertKey
  split_ifs
  · exact h
  · simp [h]

lemma mem_foldlInsert_mono :
    ∀ (cis : List (Str × Str × Str)) (ks : List Str) (a : Str), a ∈ ks →
      a ∈ cis.foldl (fun ks ci => insertKey ks ci.2.1) ks := by
  intro cis
  induction cis with
  | nil => intro ks a h; exact h
  | cons c rest ih =>
    intro ks a h
    rw [List.foldl_cons]
    exact ih _ a (mem_insertKey_mono ks c.2.1 a h)

lemma mem_foldlInsert_self :
    ∀ (cis : List (Str × Str × Str)) (ks : List Str), ∀ ci ∈ cis,
      ci.2.1 ∈ cis.foldl (fun ks ci => insertKey ks ci.2.1) ks := by
  intro cis
  induction cis with
  | nil => intro ks ci h; cases h
  | cons c rest ih =>
    intro ks ci h
    rw [List.foldl_cons]
    rcases List.mem_cons.mp h with h1 | h2
    · subst h1
      exact mem_foldlInsert_mono rest _ ci.2.1 (mem_insertKey_self ks ci.2.1)
    · exact ih _ ci h2

lemma foldlInsert_of_subset :
    ∀ (cis : List (Str × Str × Str)) (ks : List Str),
      (∀ ci ∈ cis, ci.2.1 ∈ ks) →
      cis.foldl (fun ks ci => insertKey ks ci.2.1) ks = ks := by
  intro cis
  induction cis with
  | nil => intro ks _; rfl
  | cons c rest ih =>
    intro ks h
    rw [List.foldl_cons]
    rw [show insertKey ks c.2.1 = ks from if_pos (h c (by simp))]
    exact ih ks (fun ci hci => h ci (by simp [hci]))

lemma foldlInsert_idem (cis : List (Str × Str × Str)) (ks : List Str) :
    cis.foldl (fun ks ci => insertKey ks ci.2.1)
      (cis.foldl (fun ks ci => insertKey ks ci.2.1) ks) =
    cis.foldl (fun ks ci => insertKey ks ci.2.1) ks :=
  foldlInsert_of_subset cis _ (fun ci hci => mem_foldlInsert_self cis ks ci hci)

end DenseVectorStore

/-! ## Cosine and sorting lemmas -/

namespace DenseVectorStore

/-- The spec's cosine: `dot(a,b) / (‖a‖·‖b‖)`, defined as 0 when either
vector is empty or the denominator is zero. -/
noncomputable def cosineSpec (a b : List ℚ) : ℝ :=
  if a = [] ∨ b = [] then 0
  else if normR a * normR b = 0 then 0
  else ((dotQ a b : ℚ) : ℝ) / (normR a * normR b)

/-- The scored entries of a linear scan, in store (insertion) order. -/
noncomputable def scoredList (docs : List Entry) (q : List ℚ) :
    List (Str × ℝ × Str) :=
  docs.map fun e => (e.1, cosineSpec q e.2.2, e.2.1)

lemma normSq_nonneg (a : List ℚ) : 0 ≤ normSq a := by
  unfold normSq
  apply List.sum_nonneg
  intro x hx
  obtain ⟨y, hy, rfl⟩ := List.mem_map.mp hx
  exact mul_self_nonneg y

lemma normR_mul_eq_zero_iff (a b : List ℚ) :
    normR a * normR b = 0 ↔ normSq a * normSq b = 0 := by
  unfold normR
  rw [mul_eq_zero,
    Real.sqrt_eq_zero (by exact_mod_cast normSq_nonneg a),
    Real.sqrt_eq_zero (by exact_mod_cast normSq_nonneg b)]
  constructor
  · rintro (h | h)
    · have ha : normSq a = 0 := by exact_mod_cast h
      rw [ha, zero_mul]
    · have hb : normSq b = 0 := by exact_mod_cast h
      rw [hb, mul_zero]
  · intro h
    rcases mul_eq_zero.mp h with h | h
    · left; exact_mod_cast h
    · right; exact_mod_cast h

lemma cosineE_eq (q v : List ℚ)
    (H : v = [] ∨ q = [] ∨ normSq q * normSq v = 0 ∨ v.length = q.length) :
    cosineE q v = .ok (cosineSpec q v) := by
  unfold cosineE cosineSpec
  by_cases h1 : q = [] ∨ v = []
  · rw [if_pos h1, if_pos h1]
  · rw [if_neg h1, if_neg h1]
    by_cases h2 : normSq q * normSq v = 0
    · rw [if_pos h2, if_pos ((normR_mul_eq_zero_iff q v).mpr h2)]
    · rw [if_neg h2, if_neg (fun hc => h2 ((normR_mul_eq_zero_iff q v).mp hc))]
      have hlen : q.length = v.length := by
        rcases H with h | h | h | h
        · exact absurd (Or.inr h) h1
        · exact absurd (Or.inl h) h1
        · exact absurd h h2
        · exact h.symm
      rw [if_pos hlen]

lemma mapM_scored (q : List ℚ) :
    ∀ docs : List Entry,
    (∀ e ∈ docs, e.2.2 = [] ∨ q = [] ∨ normSq q * normSq e.2.2 = 0 ∨
      e.2.2.length = q.length) →
    docs.mapM (fun e => do
      let s ← cosineE q e.2.2
      pure (e.1, s, e.2.1)) = Except.ok (scoredList docs q) := by
  intro docs
  induction docs with
  | nil => intro _; rfl
  | cons e rest ih =>
    intro H
    rw [List.mapM_cons, cosineE_eq q e.2.2 (H e (by simp)),
      ih (fun x hx => H x (by simp [hx]))]
    rfl

lemma filter_orderedInsert (s : ℝ) (x : Str × ℝ × Str) :
    ∀ l : List (Str × ℝ × Str),
    (List.orderedInsert (fun a b => b.2.1 ≤ a.2.1) x l).filter
        (fun y => decide (y.2.1 = s)) =
      if x.2.1 = s then x :: l.filter (fun y => decide (y.2.1 = s))
      else l.filter (fun y => decide (y.2.1 = s)) := by
  intro l
  induction l with
  | nil =>
    rw [List.orderedInsert]
    by_cases hx : x.2.1 = s
    · rw [if_pos hx]; simp [List.filter_cons, hx]
    · rw [if_neg hx]; simp [List.filter_cons, hx]
  | cons y ys ih =>
    rw [List.orderedInsert]
    by_cases hr : y.2.1 ≤ x.2.1
    · rw [if_pos hr]
      by_cases hx : x.2.1 = s
      · rw [if_pos hx]; simp [List.filter_cons, hx]
      · rw [if_neg hx]; simp [List.filter_cons, hx]
    · rw [if_neg hr]
      by_cases hy : y.2.1 = s <;> by_cases hx : x.2.1 = s
      · exact absurd (le_of_eq (hy.trans hx.symm)) hr
      · rw [if_neg hx]
        simp [List.filter_cons, hy, hx, ih]
      · rw [if_pos hx]
        simp [List.filter_cons, hy, hx, ih]
      · rw [if_neg hx]
        simp [List.filter_cons, hy, hx, ih]

lemma filter_insertionSort (s : ℝ) :
    ∀ l : List (Str × ℝ × Str),
    (List.insertionSort (fun a b => b.2.1 ≤ a.2.1) l).filter
        (fun y => decide (y.2.1 = s)) =
      l.filter (fun y => decide (y.2.1 = s)) := by
  intro l
  induction l with
  | nil => rfl
  | cons x xs ih =>
    rw [List.insertionSort, filter_orderedInsert, List.filter_cons]
    by_cases hx : x.2.1 = s
    · rw [if_pos hx]
      simp [hx, ih]
    · rw [if_neg hx]
      simp [hx, ih]

end DenseVectorStore

/-! ## Claim theorems -/

/-- C2: for every question string and every `k`, when the LLM port is
absent (`llm` is `None`), `RAGService.ask` returns normally — whatever the
retrieval chain would do — with a result whose answer is the fixed text
stating the LLM is not configured and whose sources list is empty. -/
theorem c2_ask_not_configured {σ : Type}
    (searchFn : Str → ℕ → Except Str (List (Str × σ × Str)))
    (fmt : σ → Str) (question : Str) (k : ℕ) :
    RAGService.ask none searchFn fmt question k =
      .ok ⟨question, RAGService.notConfiguredAnswer, []⟩ ∧
    ChunkerService.containsSub (s2l "LLM is not configured")
      RAGService.notConfiguredAnswer = true :=
  ⟨rfl, by decide⟩

/-- C7: chunking is deterministic — two runs of `ChunkerService.chunk` on
the same `(document_id, text)` pair produce identical outcomes (the
embedding is a pure function of its inputs: the source touches no
randomness, global mutable state, or I/O on this path). -/
theorem c7_chunk_deterministic (d1 d2 t1 t2 : Str) (hd : d1 = d2) (ht : t1 = t2) :
    ChunkerService.chunk d1 t1 = ChunkerService.chunk d2 t2 := by
  rw [hd, ht]

theorem c7_chunk_deterministic_witness :
    ChunkerService.chunk (s2l "d") (s2l "Hi.") = ChunkerService.chunk (s2l "d") (s2l "Hi.") :=
  c7_chunk_deterministic _ _ _ _ rfl rfl

/-- C4: when both provider call styles return successfully but their
responses normalise to empty text (both are unusable), `LLMClient.generate`
returns the empty string — it does not raise. -/
theorem c4_generate_empty_on_unusable (c g : LLMClient.PyVal)
    (hc : LLMClient.extractText c = []) (hg : LLMClient.extractText g = []) :
    LLMClient.generate (.ok c) (.ok g) = [] := by
  unfold LLMClient.generate
  simp [hc, hg]

theorem c4_generate_empty_on_unusable_witness :
    LLMClient.extractText LLMClient.PyVal.pyNone = [] ∧
    LLMClient.extractText (LLMClient.PyVal.pyDict []) = [] ∧
    LLMClient.generate (.ok LLMClient.PyVal.pyNone) (.ok (LLMClient.PyVal.pyDict [])) = [] :=
  ⟨rfl, rfl, c4_generate_empty_on_unusable _ _ rfl rfl⟩

/-- C1 (code bug): on a document whose text yields a block longer than
`maxChars` (701 repetitions of `a`), `ChunkerService.chunk` does not split
and re-pack the block — the source reaches
`self._append_block(...)`, a method `ChunkerService` never defines, and
raises `AttributeError`. -/
theorem c1_oversized_block_raises :
    ChunkerService.chunk (s2l "d") (List.replicate 701 'a') =
      .error ChunkerService.attrErrorMsg := by
  rfl


/-- C8: chunking a text whose characters are all whitespace yields the
empty sequence, and every chunk any run of the chunker emits has
non-empty text. -/
theorem c8_chunk_empty_whitespace_and_nonempty_chunks :
    (∀ d t : Str, (∀ c ∈ t, pyIsSpace c = true) →
      ChunkerService.chunk d t = .ok []) ∧
    (∀ (d t : Str) (cs : List (Str × Str)), ChunkerService.chunk d t = .ok cs →
      ∀ p ∈ cs, p.2 ≠ []) := by
  constructor
  · intro d t h
    unfold ChunkerService.chunk
    rw [normalize_of_allSpace t h]
    rfl
  · intro d t cs h p hp
    unfold ChunkerService.chunk at h
    dsimp only at h
    split_ifs at h with h1 h2
    · cases h; cases hp
    · cases h; cases hp
    · cases hcl : ChunkerService.chunkLoop d
          (ChunkerService.mergeTinyBlocks (ChunkerService.toBlocks
            (ChunkerService.normalize t))) ⟨[], [], 0, 0⟩ with
      | error e => rw [hcl] at h; cases h
      | ok st =>
        rw [hcl] at h
        cases h
        unfold ChunkerService.fixPronounStarts at hp
        have hg0 : ChunkerService.goodChunks ([] : List (Str × Str)) :=
          fun q hq => by cases hq
        have hg := ChunkerService.chunkLoop_preserves
          (fun s => ChunkerService.goodChunks s.chunks) d
          (fun s hs => ChunkerService.goodChunks_flushSt d s hs)
          (fun s hs => by
            show ChunkerService.goodChunks (ChunkerService.carrySt s).chunks
            rw [ChunkerService.carrySt_chunks]; exact hs)
          (fun s cur len hs => hs)
          _ _ _ hcl hg0
        have hg2 := ChunkerService.goodChunks_flushSt d st hg
        exact (ChunkerService.goodChunks_fixGo _ [] hg2 p hp).2

theorem c8_chunk_empty_whitespace_and_nonempty_chunks_witness :
    ChunkerService.chunk (s2l "d") (s2l " \t\n ") = .ok [] ∧
    ∀ p ∈ [(s2l "d#chunk0", s2l "Hi.")], p.2 ≠ [] :=
  ⟨c8_chunk_empty_whitespace_and_nonempty_chunks.1 (s2l "d") (s2l " \t\n ") (by decide),
   c8_chunk_empty_whitespace_and_nonempty_chunks.2 (s2l "d") (s2l "Hi.") _ (by rfl)⟩

/-- C9: the chunk ids produced by `ChunkerService.chunk` are exactly
`"{document_id}#chunk{ordinal}"` with the ordinal counting emitted chunks
in emission order from 0. -/
theorem c9_chunk_ids_are_ordinals (d t : Str) (cs : List (Str × Str))
    (h : ChunkerService.chunk d t = .ok cs) :
    cs.map Prod.fst = (List.range cs.length).map (ChunkerService.chunkId d) := by
  unfold ChunkerService.chunk at h
  dsimp only at h
  split_ifs at h with h1 h2
  · cases h; rfl
  · cases h; rfl
  · cases hcl : ChunkerService.chunkLoop d
        (ChunkerService.mergeTinyBlocks (ChunkerService.toBlocks
          (ChunkerService.normalize t))) ⟨[], [], 0, 0⟩ with
    | error e => rw [hcl] at h; cases h
    | ok st =>
      rw [hcl] at h
      cases h
      unfold ChunkerService.fixPronounStarts
      have hq0 : ChunkerService.idsSpec d ⟨[], [], 0, 0⟩ := rfl
      have hst := ChunkerService.chunkLoop_preserves
        (ChunkerService.idsSpec d) d
        (fun s hs => ChunkerService.idsSpec_flushSt d s hs)
        (fun s hs => ChunkerService.idsSpec_carrySt d s hs)
        (fun s cur len hs => hs)
        _ _ _ hcl hq0
      have hfl := ChunkerService.idsSpec_flushSt d st hst
      unfold ChunkerService.idsSpec at hfl
      have hlen1 : (ChunkerService.fixGo [] (ChunkerService.flushSt d st).chunks).length =
          (ChunkerService.flushSt d st).chunks.length := by
        have := congrArg List.length
          (ChunkerService.fixGo_map_fst (ChunkerService.flushSt d st).chunks [])
        simpa using this
      have hlen2 : (ChunkerService.flushSt d st).chunks.length =
          (ChunkerService.flushSt d st).idx := by
        have := congrArg List.length hfl
        simpa using this
      rw [ChunkerService.fixGo_map_fst, hlen1, hlen2]
      exact hfl

theorem c9_chunk_ids_are_ordinals_witness :
    ([(s2l "d#chunk0", s2l "Hi.")] : List (Str × Str)).map Prod.fst =
      (List.range ([(s2l "d#chunk0", s2l "Hi.")] : List (Str × Str)).length).map
        (ChunkerService.chunkId (s2l "d")) :=
  c9_chunk_ids_are_ordinals (s2l "d") (s2l "Hi.") _ (by rfl)

/-- C10 (amended): the pronoun-fix post-pass keeps length, ids and order;
each output text is the input text, or — for a later chunk — the *strip*
of (the stripped last paragraph-block of the previous output chunk, a
blank line, then the input text).  (The claim's bare "prefix prepended"
shape fails when the input text carries edge whitespace, since the pass
strips the concatenation.) -/
theorem c10_fix_pronoun_frame (cs : List (Str × Str)) :
    (ChunkerService.fixPronounStarts cs).length = cs.length ∧
    (ChunkerService.fixPronounStarts cs).map Prod.fst = cs.map Prod.fst ∧
    ∀ i : ℕ, i < cs.length →
      ((ChunkerService.fixPronounStarts cs).getD i ([], [])).2 = (cs.getD i ([], [])).2 ∨
      (0 < i ∧
        ((ChunkerService.fixPronounStarts cs).getD i ([], [])).2 =
          pyStrip (pyStrip ((splitNN
              (((ChunkerService.fixPronounStarts cs).getD (i - 1) ([], [])).2)).getLastD []) ++
            nn ++ (cs.getD i ([], [])).2)) := by
  have hs := ChunkerService.fixGo_spec cs []
  have hlen : (ChunkerService.fixPronounStarts cs).length = cs.length := by
    have := congrArg List.length hs.1
    simpa using this
  refine ⟨hlen, hs.1, ?_⟩
  intro i hi
  cases i with
  | zero =>
    cases cs with
    | nil => simp at hi
    | cons c rest =>
      obtain ⟨cid, ctext⟩ := c
      left
      show ((ChunkerService.fixGo [] ((cid, ctext) :: rest)).getD 0 ([], [])).2 = _
      rw [ChunkerService.fixGo]
      simp only [List.getD_cons_zero]
      split_ifs with hcond
      · exact absurd hcond.1 (by simp)
      · rfl
  | succ j =>
    rcases hs.2 (j + 1) hi with hl | hr
    · left; exact hl
    · right
      refine ⟨Nat.succ_pos j, ?_⟩
      simpa using hr

/-- C10 (counterexample): on input chunks `("a", "Hello")`,
`("b", "it x ")` the second output text is `"Hello\n\nit x"` — neither the
input text nor the input text with the previous block and a blank line
prepended, because the pass re-strips and drops the trailing space. -/
theorem c10_fix_pronoun_counterexample :
    ¬ (((ChunkerService.fixPronounStarts
          [(s2l "a", s2l "Hello"), (s2l "b", s2l "it x ")]).getD 1 ([], [])).2 =
        s2l "it x " ∨
       ((ChunkerService.fixPronounStarts
          [(s2l "a", s2l "Hello"), (s2l "b", s2l "it x ")]).getD 1 ([], [])).2 =
        s2l "Hello" ++ nn ++ s2l "it x ") := by
  decide

theorem c10_fix_pronoun_frame_witness :
    ((ChunkerService.fixPronounStarts
        [(s2l "a", s2l "Hello"), (s2l "b", s2l "it x ")]).getD 1 ([], [])).2 =
      (([(s2l "a", s2l "Hello"), (s2l "b", s2l "it x ")] :
          List (Str × Str)).getD 1 ([], [])).2 ∨
    (0 < 1 ∧
      ((ChunkerService.fixPronounStarts
          [(s2l "a", s2l "Hello"), (s2l "b", s2l "it x ")]).getD 1 ([], [])).2 =
        pyStrip (pyStrip ((splitNN
            (((ChunkerService.fixPronounStarts
                [(s2l "a", s2l "Hello"), (s2l "b", s2l "it x ")]).getD 0 ([], [])).2)).getLastD []) ++
          nn ++ (([(s2l "a", s2l "Hello"), (s2l "b", s2l "it x ")] :
              List (Str × Str)).getD 1 ([], [])).2)) :=
  (c10_fix_pronoun_frame [(s2l "a", s2l "Hello"), (s2l "b", s2l "it x ")]).2.2 1 (by decide)

/-- C5 (amended): during block extraction a lone line is kept standalone
exactly when `_looks_like_heading` holds, and that predicate is: starts
with a heading marker, or is at most 80 characters and matches a known
heading-word prefix at a word boundary, or is at most 60 characters with
at least two uppercase characters; every block with two or more
surviving lines has them joined with single spaces. -/
theorem c5_heading_predicate_amended :
    (∀ line : Str, ChunkerService.looksLikeHeading line =
      ChunkerService.amendedLooksLikeHeading line) ∧
    (∀ b : Str, 2 ≤ (ChunkerService.caseALines b).length →
      ChunkerService.processCaseABlock b =
        some (joinSep (s2l " ") (ChunkerService.caseALines b))) := by
  constructor
  · intro line
    apply Bool.eq_iff_iff.mpr
    unfold ChunkerService.looksLikeHeading ChunkerService.amendedLooksLikeHeading
    constructor
    · intro h
      split_ifs at h with h1 h2 h3
      · simp only [Bool.or_eq_true]
        exact Or.inl (Or.inl h1)
      · simp only [Bool.or_eq_true, Bool.and_eq_true, decide_eq_true_eq]
        exact Or.inl (Or.inr ⟨h2.1, h2.2⟩)
      · simp only [Bool.or_eq_true, Bool.and_eq_true, decide_eq_true_eq]
        refine Or.inr ⟨h3.1, ?_⟩
        rw [← List.countP_eq_length_filter]
        exact h3.2
    · intro h
      simp only [Bool.or_eq_true, Bool.and_eq_true, decide_eq_true_eq] at h
      split_ifs with h1 h2 h3
      · rfl
      · rfl
      · rfl
      · exfalso
        rcases h with (h | h) | h
        · exact h1 h
        · exact h2 ⟨h.1, h.2⟩
        · refine h3 ⟨h.1, ?_⟩
          rw [List.countP_eq_length_filter]
          exact h.2
  · intro b hb
    unfold ChunkerService.processCaseABlock
    dsimp only
    split_ifs with h1 h2
    · exfalso; rw [h1] at hb; simp at hb
    · exfalso; have := h2.1; omega
    · rfl

theorem c5_heading_predicate_amended_witness :
    ChunkerService.processCaseABlock (s2l "line one here\nline two here") =
      some (joinSep (s2l " ")
        (ChunkerService.caseALines (s2l "line one here\nline two here"))) :=
  c5_heading_predicate_amended.2 (s2l "line one here\nline two here") (by decide)

/-- C5 (counterexample): the claim describes the third heading test as
"at least 2 uppercase-initial words", but the source counts uppercase
*characters*: the single word `McIntosh` (two uppercase characters, one
uppercase-initial word) is a heading for the source and not for the
claim. -/
theorem c5_heading_predicate_counterexample :
    ¬ (ChunkerService.looksLikeHeading (s2l "McIntosh") =
       ChunkerService.claimLooksLikeHeading (s2l "McIntosh")) := by
  decide

/-- C6: indexing the same document twice through `RAGService.index` with
the in-process dense backend leaves the Vector Index with the same number
of distinct entries for that document as indexing it once — chunk ids are
deterministic, and `add` is an upsert on the chunk id, so the second run
overwrites instead of duplicating.  Proved for any embedding function,
any prior store contents, with or without a configured chunker (and when
the chunker raises, neither run writes anything). -/
theorem c6_index_idempotent_count (embed : Str → List ℚ) (cp : Bool)
    (store : List DenseVectorStore.Entry) (d t : Str) :
    RAGService.countFor d
      (RAGService.indexDense embed cp
        (RAGService.indexDense embed cp store [(d, t)]).1 [(d, t)]).1 =
    RAGService.countFor d (RAGService.indexDense embed cp store [(d, t)]).1 := by
  unfold RAGService.indexDense
  cases hcc : RAGService.collectChunkItems cp [(d, t)] with
  | error e => rfl
  | ok cis =>
    dsimp only
    by_cases hnil : cis = []
    · subst hnil
      rfl
    · simp only [if_neg hnil]
      unfold RAGService.countFor
      rw [DenseVectorStore.addAll_map_fst, DenseVectorStore.addAll_map_fst,
        DenseVectorStore.foldlInsert_idem]

/-- C3 (amended): for every store whose entries are dimension-compatible
with the query (each stored vector is empty, or the query is empty, or
one side has zero norm, or the lengths match), `DenseVectorStore.search`
scores every entry by the cosine `dot(a,b)/(‖a‖·‖b‖)` (0 for empty or
zero-norm sides), and returns the scored entries sorted in descending
score order, ties kept in insertion order (a stable sort: the entries at
any fixed score appear exactly as in the scan order), truncated to the
first `k`. -/
theorem c3_search_cosine_ranking (docs : List DenseVectorStore.Entry)
    (q : List ℚ) (k : ℕ)
    (H : ∀ e ∈ docs, e.2.2 = [] ∨ q = [] ∨
      DenseVectorStore.normSq q * DenseVectorStore.normSq e.2.2 = 0 ∨
      e.2.2.length = q.length) :
    ∃ l : List (Str × ℝ × Str),
      DenseVectorStore.search docs q k = .ok (l.take k) ∧
      l.Perm (DenseVectorStore.scoredList docs q) ∧
      l.Sorted (fun x y => y.2.1 ≤ x.2.1) ∧
      ∀ s : ℝ, l.filter (fun y => decide (y.2.1 = s)) =
        (DenseVectorStore.scoredList docs q).filter (fun y => decide (y.2.1 = s)) := by
  unfold DenseVectorStore.search
  rw [DenseVectorStore.mapM_scored q docs H]
  refine ⟨List.insertionSort (fun a b => b.2.1 ≤ a.2.1)
    (DenseVectorStore.scoredList docs q), rfl, ?_, ?_, ?_⟩
  · exact List.perm_insertionSort _ _
  · letI : IsTotal (Str × ℝ × Str) (fun a b => b.2.1 ≤ a.2.1) :=
      ⟨fun a b => le_total b.2.1 a.2.1⟩
    letI : IsTrans (Str × ℝ × Str) (fun a b => b.2.1 ≤ a.2.1) :=
      ⟨fun a b c hab hbc => le_trans hbc hab⟩
    exact List.sorted_insertionSort _ _
  · intro s
    exact DenseVectorStore.filter_insertionSort s _

theorem c3_search_cosine_ranking_witness :
    ∃ l : List (Str × ℝ × Str),
      DenseVectorStore.search
        [(s2l "a", s2l "ta", [(1 : ℚ), 0]), (s2l "b", s2l "tb", [(0 : ℚ), 1])]
        [(1 : ℚ), 0] 2 = .ok (l.take 2) ∧
      l.Perm (DenseVectorStore.scoredList
        [(s2l "a", s2l "ta", [(1 : ℚ), 0]), (s2l "b", s2l "tb", [(0 : ℚ), 1])]
        [(1 : ℚ), 0]) ∧
      l.Sorted (fun x y => y.2.1 ≤ x.2.1) ∧
      ∀ s : ℝ, l.filter (fun y => decide (y.2.1 = s)) =
        (DenseVectorStore.scoredList
          [(s2l "a", s2l "ta", [(1 : ℚ), 0]), (s2l "b", s2l "tb", [(0 : ℚ), 1])]
          [(1 : ℚ), 0]).filter (fun y => decide (y.2.1 = s)) :=
  c3_search_cosine_ranking
    [(s2l "a", s2l "ta", [(1 : ℚ), 0]), (s2l "b", s2l "tb", [(0 : ℚ), 1])]
    [(1 : ℚ), 0] 2 (by
      intro e he
      rcases List.mem_cons.mp he with rfl | he2
      · exact Or.inr (Or.inr (Or.inr rfl))
      · rcases List.mem_singleton.mp he2 with rfl
        exact Or.inr (Or.inr (Or.inr rfl)))

/-- C3 (counterexample): the claim quantifies over *every* stored entry
and query vector, but on a store holding a 2-dimensional vector and a
1-dimensional non-zero query, `np.dot` raises `ValueError`, so `search`
raises instead of returning the ranked entries. -/
theorem c3_search_dimension_mismatch :
    DenseVectorStore.search [(s2l "a", s2l "ta", [(1 : ℚ), 2])] [(1 : ℚ)] 1 =
      .error DenseVectorStore.valueErrorMsg := by
  have hc : DenseVectorStore.cosineE [(1 : ℚ)] [(1 : ℚ), 2] =
      .error DenseVectorStore.valueErrorMsg := by
    unfold DenseVectorStore.cosineE
    rw [if_neg (by simp), if_neg (by norm_num [DenseVectorStore.normSq]),
      if_neg (by norm_num)]
  simp [DenseVectorStore.search, List.mapM, List.mapM.loop, hc, Except.map]

end LLMTwin
